import Mathlib

/-!
Shallow embedding of the humpty HTTP/WebSocket server library core
(Grinkers/humpty) and proofs about its specification claims.

Conventions of the embedding:
* Rust byte buffers (`Vec<u8>`, `&[u8]`, `&str`) are `List Nat`, each element a
  byte value; machine-integer arithmetic is `Nat` with explicit `% 2^w` where
  the source can overflow or wrap.
* Fallible Rust functions return `Except`/`Option`; `&mut self` methods are
  embedded as functions returning the updated value next to the result.
* I/O streams are embedded as explicit pure state that is threaded through.

Definitions are translated from the repository sources.  Where the deciding
code is not part of the repository snapshot (only callers or tests of it are),
the definition carries a doc comment starting with `Modelled from the spec:`
and follows the specification text instead.
-/

set_option linter.unusedVariables false
set_option maxRecDepth 8000

/-- Byte strings of the embedding: a Rust byte buffer as a list of byte values. -/
abbrev Bytes := List Nat

/-- ASCII bytes of a Lean string literal (used to write byte-string constants). -/
def str2bytes (s : String) : Bytes :=
  s.data.map (fun c => c.toNat)

/-- Carriage-return/line-feed pair, the HTTP line terminator. -/
def CRLF : Bytes := [13, 10]

namespace ByteOps

/-- Does `l` start with `p`?  (Rust `starts_with`.) -/
def startsWith : Bytes → Bytes → Bool
  | _, [] => true
  | [], _ :: _ => false
  | a :: l, b :: p => a == b && startsWith l p

/-- Does `l` contain `p` as a contiguous substring?  (Rust `str::contains`.) -/
def hasSub (l p : Bytes) : Bool :=
  match l with
  | [] => p.isEmpty
  | _ :: t => startsWith l p || hasSub t p

/-- Strip the suffix `s` from `l`, or `none` if `l` does not end with `s`.
(Rust `str::strip_suffix`.) -/
def dropSuffix (l s : Bytes) : Option Bytes :=
  if startsWith l.reverse s.reverse then some (l.take (l.length - s.length)) else none

/-- Code points with the Unicode White_Space property, as recognised by Rust
`char::is_whitespace` and hence stripped by `str::trim`: TAB, LF, VT, FF, CR,
space, NEL, NBSP, OGHAM SPACE MARK, the U+2000..U+200A spaces, LINE and
PARAGRAPH SEPARATOR, NARROW NO-BREAK SPACE, MEDIUM MATHEMATICAL SPACE and
IDEOGRAPHIC SPACE. -/
def isWhitespaceChar (c : Nat) : Bool :=
  c == 0x09 || c == 0x0A || c == 0x0B || c == 0x0C || c == 0x0D || c == 0x20 ||
  c == 0x85 || c == 0xA0 || c == 0x1680 ||
  (0x2000 ≤ c && c ≤ 0x200A) || c == 0x2028 || c == 0x2029 || c == 0x202F ||
  c == 0x205F || c == 0x3000

/-- Decode UTF-8 bytes into code points, as an automaton over the bytes:
`pending` continuation bytes of the current character are still expected and
`acc` is its partial code point.  On the UTF-8-validated text the parser
applies it to this is exact UTF-8 decoding; a malformed byte decodes to
U+FFFD (unreachable after validation). -/
def utf8DecodeRun (pending acc : Nat) : Bytes → List Nat
  | [] => []
  | b :: t =>
    if pending = 0 then
      if b ≤ 0x7F then b :: utf8DecodeRun 0 0 t
      else if 0xC2 ≤ b ∧ b ≤ 0xDF then utf8DecodeRun 1 (b - 0xC0) t
      else if 0xE0 ≤ b ∧ b ≤ 0xEF then utf8DecodeRun 2 (b - 0xE0) t
      else if 0xF0 ≤ b ∧ b ≤ 0xF4 then utf8DecodeRun 3 (b - 0xF0) t
      else 0xFFFD :: utf8DecodeRun 0 0 t
    else
      if 0x80 ≤ b ∧ b ≤ 0xBF then
        if pending = 1 then (acc * 64 + (b - 0x80)) :: utf8DecodeRun 0 0 t
        else utf8DecodeRun (pending - 1) (acc * 64 + (b - 0x80)) t
      else 0xFFFD :: utf8DecodeRun 0 0 t

/-- The code points of a UTF-8 byte string. -/
def utf8Chars (l : Bytes) : List Nat := utf8DecodeRun 0 0 l

/-- Encode one code point as UTF-8 bytes. -/
def encodeChar (c : Nat) : Bytes :=
  if c ≤ 0x7F then [c]
  else if c ≤ 0x7FF then [0xC0 + c / 64, 0x80 + c % 64]
  else if c ≤ 0xFFFF then [0xE0 + c / 4096, 0x80 + c / 64 % 64, 0x80 + c % 64]
  else [0xF0 + c / 262144, 0x80 + c / 4096 % 64, 0x80 + c / 64 % 64, 0x80 + c % 64]

/-- Encode code points as UTF-8 bytes. -/
def utf8Encode (cs : List Nat) : Bytes := cs.foldr (fun c acc => encodeChar c ++ acc) []

/-- Rust `str::trim`: remove the leading and trailing runs of Unicode
whitespace characters.  The parser applies it only to UTF-8-validated text,
where decoding, dropping the boundary whitespace characters and re-encoding
yields exactly the trimmed substring (valid UTF-8 has no overlong forms, so
the encoding round-trips). -/
def trim (l : Bytes) : Bytes :=
  utf8Encode ((((utf8Chars l).dropWhile isWhitespaceChar).reverse.dropWhile
    isWhitespaceChar).reverse)

/-- Split `l` at every occurrence of the byte `b`, keeping empty fields
(Rust `str::split(char)`); the result is always non-empty. -/
def splitByte (b : Nat) : Bytes → List Bytes
  | [] => [[]]
  | x :: t =>
    let r := splitByte b t
    if x == b then [] :: r
    else match r with
      | [] => [[x]]
      | f :: fs => (x :: f) :: fs

/-- Split `l` at the first occurrence of byte `b` into the part before and the
part after it; `none` as second component when `b` does not occur
(Rust `str::splitn(2, char)` with a one-byte pattern). -/
def splitOnceByte (b : Nat) : Bytes → Bytes × Option Bytes
  | [] => ([], none)
  | x :: t =>
    if x == b then ([], some t)
    else
      let (pre, post) := splitOnceByte b t
      (x :: pre, post)

/-- Split `l` at the first occurrence of the two-byte pattern `p0 p1` into the
part before and the part after it; `none` when the pattern does not occur
(Rust `str::splitn(2, pat)` with a two-byte pattern). -/
def splitOnceSub2 (p0 p1 : Nat) : Bytes → Bytes × Option Bytes
  | [] => ([], none)
  | [x] => ([x], none)
  | x :: y :: t =>
    if x == p0 && y == p1 then ([], some t)
    else
      let (pre, post) := splitOnceSub2 p0 p1 (y :: t)
      (x :: pre, post)

/-- Is the byte an ASCII decimal digit or letter (Rust `u8::is_ascii_alphanumeric`)? -/
def isAsciiAlphanumeric (b : Nat) : Bool :=
  (48 ≤ b && b ≤ 57) || (65 ≤ b && b ≤ 90) || (97 ≤ b && b ≤ 122)

/-- One step of the UTF-8 validation automaton used by Rust
`std::str::from_utf8` (RFC 3629 ranges; overlongs and surrogates rejected).
The state is `(pending, lo, hi)`: `pending` continuation bytes are still
expected, the next one within `[lo, hi]`, later ones within `[0x80, 0xBF]`. -/
def utf8Step (s : Nat × Nat × Nat) (b : Nat) : Option (Nat × Nat × Nat) :=
  if s.1 = 0 then
    if b ≤ 0x7F then some (0, 0x80, 0xBF)
    else if b < 0xC2 then none
    else if b ≤ 0xDF then some (1, 0x80, 0xBF)
    else if b = 0xE0 then some (2, 0xA0, 0xBF)
    else if b = 0xED then some (2, 0x80, 0x9F)
    else if b ≤ 0xEF then some (2, 0x80, 0xBF)
    else if b = 0xF0 then some (3, 0x90, 0xBF)
    else if b ≤ 0xF3 then some (3, 0x80, 0xBF)
    else if b = 0xF4 then some (3, 0x80, 0x8F)
    else none
  else if s.2.1 ≤ b ∧ b ≤ s.2.2 then some (s.1 - 1, 0x80, 0xBF)
  else none

/-- Run the UTF-8 automaton over the remaining bytes. -/
def utf8Run (s : Nat × Nat × Nat) : Bytes → Bool
  | [] => s.1 == 0
  | b :: t =>
    match utf8Step s b with
    | none => false
    | some s2 => utf8Run s2 t

/-- Validity of a byte sequence as UTF-8, as checked by Rust
`std::str::from_utf8`. -/
def utf8Valid (l : Bytes) : Bool :=
  utf8Run (0, 0x80, 0xBF) l

/-- All bytes of an ASCII (7-bit) string form valid UTF-8. -/
theorem utf8Valid_of_ascii (l : Bytes) (h : ∀ b ∈ l, b ≤ 0x7F) : utf8Valid l = true := by
  unfold utf8Valid
  induction l with
  | nil => rfl
  | cons b t ih =>
    have hb : b ≤ 0x7F := h b (List.mem_cons_self b t)
    have ht : ∀ x ∈ t, x ≤ 0x7F := fun x hx => h x (List.mem_cons_of_mem b hx)
    rw [utf8Run]
    simp only [utf8Step, if_pos rfl, if_pos hb]
    exact ih ht

end ByteOps

/-! ## `src/util.rs` -/

/-- `util.rs` `three_digit_to_utf`: renders a (u16) number as three ASCII
digit bytes.  Subtractions cannot underflow (each subtrahend is bounded by
what remains), so plain `Nat` subtraction is faithful. -/
def three_digit_to_utf (num : Nat) : Bytes :=
  let n1 := num % 10
  let n2 := ((num - n1) / 10) % 10
  let n3 := (((num - n1) - n2) / 100) % 10
  [48 + n3, 48 + n2, 48 + n1]

/-- The zero-padded three-digit decimal representation of `num` in ASCII, as
the specification describes it (for example `7` maps to the bytes of `007`). -/
def zeroPaddedThreeDigits (num : Nat) : Bytes :=
  [48 + num / 100 % 10, 48 + num / 10 % 10, 48 + num % 10]

/-- State of the `#[cfg(target_has_atomic = "64")]` counter in `util.rs`:
the two `AtomicU64` statics `TIME` and `COUNTER`.  Both values are below
`2^64`. -/
structure AtomicCounterState where
  time : Nat
  counter : Nat
deriving Repr, DecidableEq

/-- `util.rs` `counter::next` (atomic path), sequential semantics: `now` is
the millisecond clock reading (`as_millis() as u64` is a `% 2^64` cast).
Returns the produced id and the updated static state.  The `overflowing_shl`
of a value below `2^64` by 64 inside `u128` is exact multiplication by `2^64`,
and `fetch_add(1)` wraps at `2^64`. -/
def counterNextAtomic (s : AtomicCounterState) (now : Nat) : Nat × AtomicCounterState :=
  let time := if s.time = 0 then now % 2 ^ 64 else s.time
  let value := (time % 2 ^ 64) * 2 ^ 64 + s.counter % 2 ^ 64
  (value, ⟨time, (s.counter + 1) % 2 ^ 64⟩)

/-- `util.rs` `counter::next` (mutex fallback path), sequential semantics:
the state is the `u128` behind the `Mutex`; `now` is the millisecond clock
reading (`as_millis` as `u128`).  `checked_shl(64)` on a `u128` always
succeeds and discards high bits, and `+= 1` wraps at `2^128` (release
semantics). -/
def counterNextMutex (s : Nat) (now : Nat) : Nat × Nat :=
  let seeded := if s = 0 then (now * 2 ^ 64) % 2 ^ 128 else s
  let value := (seeded + 1) % 2 ^ 128
  (value, value)

/-- The id produced by the `n`-th call (0-based) to the atomic-path counter in
a process whose first call observes clock value 1, starting from the initial
static state `TIME = 0`, `COUNTER = 0`. -/
def atomicIdAt : Nat → Nat × AtomicCounterState
  | 0 => counterNextAtomic ⟨0, 0⟩ 1
  | n + 1 => counterNextAtomic (atomicIdAt n).2 1

theorem atomicIdAt_state (n : Nat) : (atomicIdAt n).2 = ⟨1, (n + 1) % 2 ^ 64⟩ := by
  induction n with
  | zero => decide
  | succ n ih =>
    rw [atomicIdAt, ih]
    simp only [counterNextAtomic, AtomicCounterState.mk.injEq]
    refine ⟨by norm_num, ?_⟩
    rw [Nat.mod_add_mod]

theorem atomicIdAt_value (n : Nat) : (atomicIdAt n).1 = 2 ^ 64 + n % 2 ^ 64 := by
  cases n with
  | zero => decide
  | succ n =>
    rw [atomicIdAt, atomicIdAt_state]
    simp only [counterNextAtomic]
    rw [Nat.mod_mod_of_dvd _ dvd_rfl]
    norm_num

/-! ## Claims C10 and C9 (`src/util.rs`) -/

/-- C10: for every `num ≤ 999`, `three_digit_to_utf num` is exactly the three
ASCII digit bytes of the zero-padded decimal representation of `num`
(for example `7` maps to the bytes of `007` and `200` to those of `200`). -/
theorem claim_C10_three_digit_to_utf (num : Nat) (h : num ≤ 999) :
    three_digit_to_utf num = zeroPaddedThreeDigits num := by
  have H : ∀ n < 1000, three_digit_to_utf n = zeroPaddedThreeDigits n := by decide
  exact H num (by omega)

/-- Witness for C10 at the concrete input 200. -/
theorem claim_C10_witness :
    200 ≤ 999 ∧ three_digit_to_utf 200 = zeroPaddedThreeDigits 200 :=
  ⟨by decide, claim_C10_three_digit_to_utf 200 (by decide)⟩

/-- C9 counterexample: on the atomic path the low 64-bit counter wraps, so the
ids of the two successive calls number `2^64 - 1` and `2^64` (0-based, in a
process whose first call reads clock value 1) are not strictly increasing. -/
theorem claim_C9_counterexample :
    ¬ ((atomicIdAt (2 ^ 64 - 1)).1 < (atomicIdAt (2 ^ 64)).1) := by
  rw [atomicIdAt_value, atomicIdAt_value]
  have h64 : (2 : Nat) ^ 64 = 18446744073709551616 := by norm_num
  rw [h64]
  omega

/-- C9 as amended: successive calls to the global id counter yield strictly
increasing values on both the atomic and the mutex-fallback path, provided the
counter does not wrap (fewer than `2^64` ids drawn on the atomic path, and no
`u128` wrap on the mutex path). -/
theorem claim_C9_amended :
    (∀ (s : AtomicCounterState) (now1 now2 : Nat),
      s.time < 2 ^ 64 → s.counter + 1 < 2 ^ 64 →
      (counterNextAtomic s now1).1 < (counterNextAtomic (counterNextAtomic s now1).2 now2).1) ∧
    (∀ (s now1 now2 : Nat),
      (if s = 0 then (now1 * 2 ^ 64) % 2 ^ 128 else s) + 2 < 2 ^ 128 →
      (counterNextMutex s now1).1 < (counterNextMutex (counterNextMutex s now1).2 now2).1) := by
  have h64 : (2 : Nat) ^ 64 = 18446744073709551616 := by norm_num
  have h128 : (2 : Nat) ^ 128 = 340282366920938463463374607431768211456 := by norm_num
  constructor
  · intro s now1 now2 htime hcnt
    simp only [counterNextAtomic]
    split_ifs <;> (rw [h64] at * ; omega)
  · intro s now1 now2 hnw
    simp only [counterNextMutex]
    split_ifs at * <;> (rw [h128] at * ; omega)

/-- Witness for C9 (amended) at concrete states: atomic state
`TIME = 5, COUNTER = 7`, mutex state `5`. -/
theorem claim_C9_witness :
    ((counterNextAtomic ⟨5, 7⟩ 3).1 < (counterNextAtomic (counterNextAtomic ⟨5, 7⟩ 3).2 4).1) ∧
    ((counterNextMutex 5 3).1 < (counterNextMutex (counterNextMutex 5 3).2 4).1) :=
  ⟨claim_C9_amended.1 ⟨5, 7⟩ 3 4 (by norm_num) (by norm_num),
   claim_C9_amended.2 5 3 4 (by norm_num)⟩

/-! ## `src/websocket/util/sha1.rs` -/

namespace Sha1

/-- 32-bit truncation. -/
def u32 (n : Nat) : Nat := n % 4294967296

/-- `u32::rotate_left`: for `x < 2^32` the bitwise OR of the two shifted parts
is their sum, since their set bits are disjoint. -/
def rotl (x k : Nat) : Nat :=
  ((x % 4294967296) * 2 ^ k + (x % 4294967296) / 2 ^ (32 - k)) % 4294967296

/-- `u32::wrapping_add`. -/
def wadd (a b : Nat) : Nat := (a + b) % 4294967296

/-- Bitwise complement `!x` on `u32`. -/
def not32 (x : Nat) : Nat := (x % 4294967296) ^^^ 4294967295

/-- `u32::from_be_bytes`. -/
def beWord (b0 b1 b2 b3 : Nat) : Nat :=
  (b0 % 256) * 16777216 + (b1 % 256) * 65536 + (b2 % 256) * 256 + b3 % 256

/-- `u64::to_be_bytes` (with inherent truncation to 64 bits). -/
def toBeBytes8 (n : Nat) : Bytes :=
  [n / 2 ^ 56 % 256, n / 2 ^ 48 % 256, n / 2 ^ 40 % 256, n / 2 ^ 32 % 256,
   n / 2 ^ 24 % 256, n / 2 ^ 16 % 256, n / 2 ^ 8 % 256, n % 256]

/-- `u32::to_be_bytes`. -/
def word32Bytes (x : Nat) : Bytes :=
  [x / 2 ^ 24 % 256, x / 2 ^ 16 % 256, x / 2 ^ 8 % 256, x % 256]

/-- Element `i` of a word list (reads of the `chunk` array), default 0. -/
def wget (w : List Nat) (i : Nat) : Nat := w.getD i 0

/-- `sha1.rs` line 16: `message_len = ((len * 8 + 583) / 512) * 64`, in
`usize` arithmetic (wrapping at `2^64`; the claims are settled under the
hypothesis that this does not wrap, since a wrap would make the later
`copy_from_slice` panic). -/
def codeMsgLen (L : Nat) : Nat := ((L * 8 + 583) % 2 ^ 64 / 512) * 64

/-- `sha1.rs` lines 17-20: the padded message.  The source allocates
`codeMsgLen L` zero bytes, copies the input to the front, sets byte `L` to
`0x80` and overwrites the final 8 bytes with the big-endian bit length
`(len * 8)` (a `usize`); when `L + 9 ≤ codeMsgLen L` that buffer is exactly
this concatenation. -/
def codeMessage (msg : Bytes) : Bytes :=
  msg ++ 128 :: (List.replicate (codeMsgLen msg.length - msg.length - 9) 0 ++
    toBeBytes8 (msg.length * 8 % 2 ^ 64))

/-- `sha1.rs` lines 33-37: the sixteen initial 32-bit words of chunk
`chunk_id`, big-endian from the padded message. -/
def codeInitWords (m : Bytes) (cid : Nat) : List Nat :=
  (List.range 16).map (fun i =>
    beWord (wget m (cid * 64 + i * 4)) (wget m (cid * 64 + i * 4 + 1))
      (wget m (cid * 64 + i * 4 + 2)) (wget m (cid * 64 + i * 4 + 3)))

/-- `sha1.rs` lines 40-43: extend the sixteen words to eighty;
`chunk[i] = (chunk[i-3] ^ chunk[i-8] ^ chunk[i-14] ^ chunk[i-16]).rotate_left(1)`
for `i` in `16..80`. -/
def codeExtend (w : List Nat) : List Nat :=
  (List.range' 16 64).foldl
    (fun w i => w ++ [rotl (wget w (i - 3) ^^^ wget w (i - 8) ^^^ wget w (i - 14) ^^^ wget w (i - 16)) 1])
    w

/-- `sha1.rs` lines 54-60: the round function and constant for index `i`.
The source's `_ => panic` arm is unreachable (`i < 80` always); indices of the
last arm `60..=79` and beyond take the same value here. -/
def codeFK (i b c d : Nat) : Nat × Nat :=
  if i ≤ 19 then ((b &&& c) ||| (not32 b &&& d), 0x5A827999)
  else if i ≤ 39 then (b ^^^ c ^^^ d, 0x6ED9EBA1)
  else if i ≤ 59 then ((b &&& c) ||| (b &&& d) ||| (c &&& d), 0x8F1BBCDC)
  else (b ^^^ c ^^^ d, 0xCA62C1D6)

/-- `sha1.rs` lines 62-69: one round of the main loop. -/
def codeRound (st : Nat × Nat × Nat × Nat × Nat) (i ti : Nat) :
    Nat × Nat × Nat × Nat × Nat :=
  let (a, b, c, d, e) := st
  let fk := codeFK i b c d
  let temp := wadd (wadd (wadd (wadd (rotl a 5) fk.1) e) fk.2) ti
  (temp, a, rotl b 30, c, d)

/-- `sha1.rs` lines 46-77: compress one 80-word chunk into the hash state
(`for (i, tem) in chunk.iter().enumerate()`, then the wrapping additions). -/
def codeCompress (h : Nat × Nat × Nat × Nat × Nat) (ws : List Nat) :
    Nat × Nat × Nat × Nat × Nat :=
  let (h0, h1, h2, h3, h4) := h
  let r := (List.range 80).foldl (fun st i => codeRound st i (wget ws i)) (h0, h1, h2, h3, h4)
  (wadd h0 r.1, wadd h1 r.2.1, wadd h2 r.2.2.1, wadd h3 r.2.2.2.1, wadd h4 r.2.2.2.2)

/-- `sha1.rs` lines 23-27: the initial hash values. -/
def initH : Nat × Nat × Nat × Nat × Nat :=
  (0x67452301, 0xEFCDAB89, 0x98BADCFE, 0x10325476, 0xC3D2E1F0)

/-- `sha1.rs` lines 31-78: process the chunks `0 .. message_len / 64`. -/
def codeProcess (m : Bytes) (nblocks : Nat) : Nat × Nat × Nat × Nat × Nat :=
  (List.range nblocks).foldl (fun h cid => codeCompress h (codeExtend (codeInitWords m cid))) initH

end Sha1

/-- `sha1.rs` `SHA1Hash::hash`: the 20-byte digest of a byte sequence. -/
def SHA1Hash.hash (msg : Bytes) : Bytes :=
  let m := Sha1.codeMessage msg
  let h := Sha1.codeProcess m (Sha1.codeMsgLen msg.length / 64)
  Sha1.word32Bytes h.1 ++ Sha1.word32Bytes h.2.1 ++ Sha1.word32Bytes h.2.2.1 ++
    Sha1.word32Bytes h.2.2.2.1 ++ Sha1.word32Bytes h.2.2.2.2

namespace Sha1Ref

open Sha1 (u32 rotl wadd not32 beWord toBeBytes8 word32Bytes wget initH)

/-- Modelled from the spec: the reference SHA-1 round constants `K_t`
(RFC 3174 / FIPS 180-4), for the accept-hash handshake description
(SHA-1 of key concatenated with the RFC 6455 GUID). -/
def specK (t : Nat) : Nat :=
  if t ≤ 19 then 0x5A827999
  else if t ≤ 39 then 0x6ED9EBA1
  else if t ≤ 59 then 0x8F1BBCDC
  else 0xCA62C1D6

/-- Modelled from the spec: the reference SHA-1 logical functions `f_t`
(Ch, Parity, Maj, Parity). -/
def specF (t b c d : Nat) : Nat :=
  if t ≤ 19 then (b &&& c) ||| (not32 b &&& d)
  else if t ≤ 39 then b ^^^ c ^^^ d
  else if t ≤ 59 then (b &&& c) ||| (b &&& d) ||| (c &&& d)
  else b ^^^ c ^^^ d

/-- Modelled from the spec: the reference SHA-1 message schedule `W_t` from
the sixteen block words `m 0 .. m 15`. -/
def specW (m : Nat → Nat) (t : Nat) : Nat :=
  if t < 16 then m t
  else rotl (specW m (t - 3) ^^^ specW m (t - 8) ^^^ specW m (t - 14) ^^^ specW m (t - 16)) 1
  termination_by t
  decreasing_by all_goals omega

/-- Modelled from the spec: the first `t` rounds of the reference SHA-1
compression, from state `st` with schedule `w`. -/
def specRounds (w : Nat → Nat) (st : Nat × Nat × Nat × Nat × Nat) :
    Nat → Nat × Nat × Nat × Nat × Nat
  | 0 => st
  | t + 1 =>
    let (a, b, c, d, e) := specRounds w st t
    let T := wadd (wadd (wadd (wadd (rotl a 5) (specF t b c d)) e) (specK t)) (w t)
    (T, a, rotl b 30, c, d)

/-- Word `i` of a 64-byte block, big-endian. -/
def specBlockWords (block : Bytes) (i : Nat) : Nat :=
  beWord (wget block (4 * i)) (wget block (4 * i + 1)) (wget block (4 * i + 2))
    (wget block (4 * i + 3))

/-- Modelled from the spec: compress one 64-byte block into the hash state. -/
def specCompress (h : Nat × Nat × Nat × Nat × Nat) (block : Bytes) :
    Nat × Nat × Nat × Nat × Nat :=
  let (h0, h1, h2, h3, h4) := h
  let r := specRounds (specW (specBlockWords block)) (h0, h1, h2, h3, h4) 80
  (wadd h0 r.1, wadd h1 r.2.1, wadd h2 r.2.2.1, wadd h3 r.2.2.2.1, wadd h4 r.2.2.2.2)

/-- Modelled from the spec: the number of zero bytes of reference SHA-1
padding after the `0x80` byte, the least making the total a multiple of 64. -/
def specPadZeros (L : Nat) : Nat := (64 - (L + 9) % 64) % 64

/-- Modelled from the spec: the reference SHA-1 padded message — the input,
one `0x80` byte, the minimal zero padding, and the 64-bit big-endian bit
length. -/
def specMessage (msg : Bytes) : Bytes :=
  msg ++ 128 :: (List.replicate (specPadZeros msg.length) 0 ++ toBeBytes8 (msg.length * 8))

/-- Split a byte sequence into its consecutive 64-byte blocks. -/
def chunks64 (l : Bytes) : List Bytes :=
  if l.isEmpty then [] else l.take 64 :: chunks64 (l.drop 64)
  termination_by l.length
  decreasing_by
    simp only [List.length_drop]
    have hne : l ≠ [] := by simp_all [List.isEmpty_iff]
    have hpos : 0 < l.length := List.length_pos.mpr hne
    omega

end Sha1Ref

/-- Modelled from the spec: the digest that the reference SHA-1 algorithm
assigns to a byte sequence. -/
def sha1Reference (msg : Bytes) : Bytes :=
  let m := Sha1Ref.specMessage msg
  let h := (Sha1Ref.chunks64 m).foldl Sha1Ref.specCompress Sha1.initH
  Sha1.word32Bytes h.1 ++ Sha1.word32Bytes h.2.1 ++ Sha1.word32Bytes h.2.2.1 ++
    Sha1.word32Bytes h.2.2.2.1 ++ Sha1.word32Bytes h.2.2.2.2

/-! ## Equivalence of `SHA1Hash::hash` with the reference SHA-1 (claim C8) -/

namespace Sha1Proof

open Sha1 Sha1Ref

theorem toBeBytes8_mod (n : Nat) : toBeBytes8 (n % 2 ^ 64) = toBeBytes8 n := by
  simp only [toBeBytes8, List.cons.injEq, and_true]
  refine ⟨by omega, by omega, by omega, by omega, by omega, by omega, by omega, by omega⟩

theorem codeMsgLen_eq (L : Nat) (h : L * 8 + 583 < 2 ^ 64) :
    codeMsgLen L = L + 9 + specPadZeros L := by
  simp only [codeMsgLen, specPadZeros]
  omega

theorem codeMessage_eq (msg : Bytes) (h : msg.length * 8 + 583 < 2 ^ 64) :
    codeMessage msg = specMessage msg := by
  simp only [codeMessage, specMessage]
  rw [toBeBytes8_mod,
    show codeMsgLen msg.length - msg.length - 9 = specPadZeros msg.length from by
      rw [codeMsgLen_eq msg.length h]; omega]

theorem codeMessage_length (msg : Bytes) (h : msg.length * 8 + 583 < 2 ^ 64) :
    (codeMessage msg).length = codeMsgLen msg.length := by
  have hle := codeMsgLen_eq msg.length h
  simp only [codeMessage, toBeBytes8, List.length_append, List.length_cons,
    List.length_replicate, List.length_nil, specPadZeros] at *
  omega

theorem codeMsgLen_dvd (L : Nat) : 64 ∣ codeMsgLen L := by
  simp only [codeMsgLen]
  exact dvd_mul_left 64 _

/-- The partial word-extension fold agrees with the reference schedule. -/
theorem codeExtend_fold (w16 : List Nat) (f : Nat → Nat) (hlen : w16.length = 16)
    (hw : ∀ i, i < 16 → wget w16 i = f i) :
    ∀ k, k ≤ 64 →
      ((List.range' 16 k).foldl
        (fun w i => w ++ [rotl (wget w (i - 3) ^^^ wget w (i - 8) ^^^ wget w (i - 14) ^^^ wget w (i - 16)) 1])
        w16).length = 16 + k ∧
      ∀ t, t < 16 + k →
        wget ((List.range' 16 k).foldl
          (fun w i => w ++ [rotl (wget w (i - 3) ^^^ wget w (i - 8) ^^^ wget w (i - 14) ^^^ wget w (i - 16)) 1])
          w16) t = specW f t := by
  intro k
  induction k with
  | zero =>
    intro _
    simp only [List.range'_zero, List.foldl_nil]
    refine ⟨hlen, fun t ht => ?_⟩
    rw [specW, if_pos (by omega)]
    exact hw t (by omega)
  | succ k ih =>
    intro hk
    obtain ⟨ihlen, ihw⟩ := ih (by omega)
    rw [List.range'_1_concat, List.foldl_append, List.foldl_cons, List.foldl_nil]
    set wk := (List.range' 16 k).foldl
      (fun w i => w ++ [rotl (wget w (i - 3) ^^^ wget w (i - 8) ^^^ wget w (i - 14) ^^^ wget w (i - 16)) 1])
      w16 with hwk
    constructor
    · simp only [List.length_append, List.length_cons, List.length_nil, ihlen]
      omega
    · intro t ht
      rcases Nat.lt_or_ge t (16 + k) with hlt | hge
      · unfold wget
        rw [List.getD_append _ _ _ _ (by omega)]
        exact ihw t hlt
      · have hteq : t = 16 + k := by omega
        subst hteq
        unfold wget
        rw [List.getD_append_right _ _ _ _ (by omega), ihlen]
        simp only [Nat.sub_self, List.getD_cons_zero]
        rw [specW, if_neg (by omega)]
        have e3 : 16 + k - 3 < 16 + k := by omega
        have e8 : 16 + k - 8 < 16 + k := by omega
        have e14 : 16 + k - 14 < 16 + k := by omega
        have e16 : 16 + k - 16 < 16 + k := by omega
        rw [← ihw _ e3, ← ihw _ e8, ← ihw _ e14, ← ihw _ e16]
        rfl

/-- The extended 80-word chunk agrees with the reference schedule. -/
theorem codeExtend_spec (w16 : List Nat) (f : Nat → Nat) (hlen : w16.length = 16)
    (hw : ∀ i, i < 16 → wget w16 i = f i) :
    ∀ t, t < 80 → wget (codeExtend w16) t = specW f t := by
  intro t ht
  exact (codeExtend_fold w16 f hlen hw 64 (by omega)).2 t (by omega)

theorem codeFK_eq (i b c d : Nat) : codeFK i b c d = (specF i b c d, specK i) := by
  simp only [codeFK, specF, specK]
  split_ifs <;> rfl

/-- The enumerated main loop agrees with the reference rounds. -/
theorem rounds_eq (ws : List Nat) (w : Nat → Nat) (st : Nat × Nat × Nat × Nat × Nat)
    (hw : ∀ i, i < 80 → wget ws i = w i) :
    ∀ n, n ≤ 80 →
      (List.range n).foldl (fun st i => codeRound st i (wget ws i)) st = specRounds w st n := by
  intro n
  induction n with
  | zero => intro _; rfl
  | succ n ih =>
    intro hn
    rw [List.range_succ, List.foldl_append, List.foldl_cons, List.foldl_nil, ih (by omega)]
    show codeRound (specRounds w st n) n (wget ws n) = specRounds w st (n + 1)
    rw [specRounds, hw n (by omega)]
    generalize specRounds w st n = st'
    obtain ⟨a, b, c, d, e⟩ := st'
    simp only [codeRound, codeFK_eq]

theorem codeInitWords_length (m : Bytes) (cid : Nat) : (codeInitWords m cid).length = 16 := by
  simp [codeInitWords]

theorem wget_take_drop (m : Bytes) (j k : Nat) (hk : k < 64) :
    wget ((m.drop j).take 64) k = wget m (j + k) := by
  unfold wget
  rw [List.getD_eq_getD_get?, List.getD_eq_getD_get?, List.get?_take hk, List.get?_drop]

theorem codeInitWords_agree (m : Bytes) (cid i : Nat) (hi : i < 16) :
    wget (codeInitWords m cid) i = specBlockWords ((m.drop (64 * cid)).take 64) i := by
  unfold wget codeInitWords
  rw [List.getD_eq_getD_get?, List.get?_map, List.get?_range hi]
  show Sha1.beWord _ _ _ _ = _
  unfold specBlockWords
  rw [wget_take_drop _ _ _ (by omega), wget_take_drop _ _ _ (by omega),
    wget_take_drop _ _ _ (by omega), wget_take_drop _ _ _ (by omega)]
  rw [show 64 * cid + 4 * i = cid * 64 + i * 4 from by ring,
    show 64 * cid + (4 * i + 1) = cid * 64 + (i * 4 + 1) from by ring,
    show 64 * cid + (4 * i + 2) = cid * 64 + (i * 4 + 2) from by ring,
    show 64 * cid + (4 * i + 3) = cid * 64 + (i * 4 + 3) from by ring]
  rfl

/-- Per-block equivalence: compressing chunk `cid` as the source does equals
the reference compression of the `cid`-th 64-byte block. -/
theorem compress_eq (h : Nat × Nat × Nat × Nat × Nat) (m : Bytes) (cid : Nat) :
    codeCompress h (codeExtend (codeInitWords m cid)) =
      specCompress h ((m.drop (64 * cid)).take 64) := by
  obtain ⟨h0, h1, h2, h3, h4⟩ := h
  have hsched := codeExtend_spec (codeInitWords m cid)
    (specBlockWords ((m.drop (64 * cid)).take 64)) (codeInitWords_length m cid)
    (fun i hi => codeInitWords_agree m cid i hi)
  simp only [codeCompress, specCompress]
  rw [rounds_eq _ _ _ hsched 80 (by omega)]

theorem foldl_ext {α β : Type} (F G : α → β → α) (l : List β) (init : α)
    (h : ∀ acc x, x ∈ l → F acc x = G acc x) : l.foldl F init = l.foldl G init := by
  induction l generalizing init with
  | nil => rfl
  | cons x t ih =>
    simp only [List.foldl_cons]
    rw [h init x (List.mem_cons_self x t)]
    exact ih _ (fun acc y hy => h acc y (List.mem_cons_of_mem x hy))

theorem chunks64_foldl {α : Type} (F : α → Bytes → α) :
    ∀ (n : Nat) (m : Bytes) (init : α), m.length = 64 * n →
      (chunks64 m).foldl F init =
        (List.range n).foldl (fun h i => F h ((m.drop (64 * i)).take 64)) init := by
  intro n
  induction n with
  | zero =>
    intro m init hlen
    have : m = [] := List.length_eq_zero.mp (by omega)
    subst this
    rw [chunks64]
    simp
  | succ n ih =>
    intro m init hlen
    have hne : m ≠ [] := by
      intro e
      rw [e] at hlen
      simp at hlen
    rw [chunks64, if_neg (by simp [List.isEmpty_iff, hne]), List.foldl_cons,
      List.range_succ_eq_map, List.foldl_cons, List.foldl_map]
    rw [ih (m.drop 64) _ (by simp only [List.length_drop]; omega)]
    have harg : F init ((m.drop (64 * 0)).take 64) = F init (m.take 64) := by
      norm_num
    rw [harg]
    exact foldl_ext _ _ _ _ (fun acc x _ => by
      rw [List.drop_drop, show 64 + 64 * x = 64 * Nat.succ x from by omega])

/-- C8: for every input byte sequence (whose `usize` bit-length arithmetic
does not wrap, `len * 8 + 583 < 2^64`), `SHA1Hash::hash` returns the 20-byte
digest that the reference SHA-1 algorithm assigns to that input. -/
theorem claim_C8_sha1_hash (msg : Bytes) (h : msg.length * 8 + 583 < 2 ^ 64) :
    SHA1Hash.hash msg = sha1Reference msg := by
  have hm : codeMessage msg = specMessage msg := codeMessage_eq msg h
  have hlen : (specMessage msg).length = 64 * (codeMsgLen msg.length / 64) := by
    rw [← hm, codeMessage_length msg h]
    exact (Nat.mul_div_cancel' (codeMsgLen_dvd msg.length)).symm
  have key : codeProcess (specMessage msg) (codeMsgLen msg.length / 64) =
      (chunks64 (specMessage msg)).foldl specCompress initH := by
    unfold codeProcess
    rw [chunks64_foldl specCompress (codeMsgLen msg.length / 64) (specMessage msg) initH hlen]
    exact foldl_ext _ _ _ _ (fun acc cid _ => compress_eq acc (specMessage msg) cid)
  simp only [SHA1Hash.hash, sha1Reference]
  rw [hm, key]

/-- Witness for C8 at the empty input. -/
theorem claim_C8_witness :
    ([] : Bytes).length * 8 + 583 < 2 ^ 64 ∧ SHA1Hash.hash [] = sha1Reference [] :=
  ⟨by norm_num, claim_C8_sha1_hash [] (by norm_num)⟩

end Sha1Proof

/-! ## `src/http/method.rs` and the request-line method conversion -/

/-- `method.rs` `RequestError`, the error type of `Method::from_name`. -/
inductive RequestError
  | request
deriving Repr, DecidableEq

/-- HTTP method.  The five named variants are `method.rs` lines 8-20.  The
`custom` variant is the open-set extension required by the infallible
request-line conversion `Method::from` that `request.rs` line 184 calls,
which is absent from the snapshot (modelled from the spec: the method is an
open set of known verbs plus arbitrary strings). -/
inductive Method
  | get
  | post
  | put
  | delete
  | options
  | custom (name : Bytes)
deriving Repr, DecidableEq

/-- `method.rs` lines 30-39 `Method::from_name`: fallible, closed-set
conversion recognising exactly GET, POST, PUT, DELETE and OPTIONS. -/
def Method.from_name (name : Bytes) : Except RequestError Method :=
  if name = str2bytes "GET" then .ok .get
  else if name = str2bytes "POST" then .ok .post
  else if name = str2bytes "PUT" then .ok .put
  else if name = str2bytes "DELETE" then .ok .delete
  else if name = str2bytes "OPTIONS" then .ok .options
  else .error .request

/-- Modelled from the spec: the infallible conversion `Method::from` used by
`RequestHead::new` on the request-line method token (absent from the
snapshot) — known verbs map to their variants, any other token is carried
verbatim as a user method. -/
def Method.fromToken (name : Bytes) : Method :=
  if name = str2bytes "GET" then .get
  else if name = str2bytes "POST" then .post
  else if name = str2bytes "PUT" then .put
  else if name = str2bytes "DELETE" then .delete
  else if name = str2bytes "OPTIONS" then .options
  else .custom name

/-! ## `src/http/request.rs` data model -/

/-- `request.rs` lines 17-25 `HttpVersion`. -/
inductive HttpVersion
  | http09
  | http10
  | http11
deriving Repr, DecidableEq

/-- `request.rs` lines 61-68 `HttpVersion::try_from_net_str` (returns the
input on error; the empty string is HTTP/0.9). -/
def HttpVersion.try_from_net_str (value : Bytes) : Except Bytes HttpVersion :=
  if value = str2bytes "HTTP/1.0" then .ok .http10
  else if value = str2bytes "HTTP/1.1" then .ok .http11
  else if value = [] then .ok .http09
  else .error value

/-- Modelled from the spec: media type `type/subtype` (`http/mime.rs` is not
in the snapshot). -/
structure MimeType where
  ty : Bytes
  sub : Bytes
deriving Repr, DecidableEq

/-- The `text/html` media type (`MimeType::TextHtml`). -/
def MimeType.TextHtml : MimeType := ⟨str2bytes "text", str2bytes "html"⟩

/-- The `*/*` wildcard media type. -/
def MimeType.StarStar : MimeType := ⟨str2bytes "*", str2bytes "*"⟩

/-- Modelled from the spec: a quality value in thousandths; `QValue::default`
is `q=1`. -/
def QValue.default : Nat := 1000

/-- Modelled from the spec: one element of a parsed `Accept` list, a media
type with a quality value. -/
structure AcceptMime where
  mime : MimeType
  q : Nat
deriving Repr, DecidableEq

/-- `AcceptMime::from_mime`. -/
def AcceptMime.from_mime (m : MimeType) (q : Nat) : AcceptMime := ⟨m, q⟩

/-- `AcceptMime::default` is `*/*` with `q=1`. -/
def AcceptMime.default : AcceptMime := ⟨MimeType.StarStar, QValue.default⟩

/-- Hexadecimal value of an ASCII digit byte. -/
def hexVal (b : Nat) : Option Nat :=
  if 48 ≤ b ∧ b ≤ 57 then some (b - 48)
  else if 65 ≤ b ∧ b ≤ 70 then some (b - 55)
  else if 97 ≤ b ∧ b ≤ 102 then some (b - 87)
  else none

/-- Modelled from the spec: a parsed quality parameter value (`1`, `1.0`,
`0.5`, `0.75`, ...) in thousandths; `none` when unparseable. -/
def parseQValue (v : Bytes) : Option Nat :=
  let p := ByteOps.splitOnceByte 46 v
  let frac : Bytes := (p.2.getD []).take 3
  if ¬ (p.1 ≠ [] ∧ p.1.all (fun b => 48 ≤ b && b ≤ 57) ∧
        frac.all (fun b => 48 ≤ b && b ≤ 57)) then none
  else
    let ip := p.1.foldl (fun a b => a * 10 + (b - 48)) 0
    let fp := frac.foldl (fun a b => a * 10 + (b - 48)) 0
    let q := ip * 1000 + fp * 10 ^ (3 - frac.length)
    if q ≤ 1000 then some q else none

/-- Modelled from the spec: parse one `Accept` element such as
`text/html;q=0.8` (a `type/subtype` with an optional quality parameter,
default `q=1`). -/
def AcceptMime.parseElement (e : Bytes) : Option AcceptMime :=
  let p := ByteOps.splitOnceByte 59 e
  let mt := ByteOps.splitOnceByte 47 (ByteOps.trim p.1)
  match mt.2 with
  | none => none
  | some sub =>
    if mt.1 = [] ∨ sub = [] then none
    else
      match p.2 with
      | none => some ⟨⟨mt.1, sub⟩, QValue.default⟩
      | some params =>
        let ps := ByteOps.trim params
        if ByteOps.startsWith ps (str2bytes "q=") then
          match parseQValue (ps.drop 2) with
          | some q => some ⟨⟨mt.1, sub⟩, q⟩
          | none => none
        else some ⟨⟨mt.1, sub⟩, QValue.default⟩

/-- Modelled from the spec: `AcceptMime::parse` — an `Accept` header value as
an ordered list of `(type/subtype, q)` entries, `none` when unparseable. -/
def AcceptMime.parse (hdr : Bytes) : Option (List AcceptMime) :=
  ((ByteOps.splitByte 44 hdr).map ByteOps.trim).mapM AcceptMime.parseElement

/-- Lower-case an ASCII byte. -/
def asciiLower (b : Nat) : Nat := if 65 ≤ b ∧ b ≤ 90 then b + 32 else b

/-- Header names: the well-known names `request.rs` matches on plus arbitrary
names.  Modelled from the spec (`http/headers.rs` is not in the snapshot);
comparison is ASCII-case-insensitive. -/
inductive HeaderName
  | accept
  | contentLength
  | transferEncoding
  | cookie
  | custom (name : Bytes)
deriving Repr, DecidableEq

/-- ASCII-case-insensitive header-name comparison (modelled from the spec). -/
def headerNameEq : HeaderName → HeaderName → Bool
  | .accept, .accept => true
  | .contentLength, .contentLength => true
  | .transferEncoding, .transferEncoding => true
  | .cookie, .cookie => true
  | .custom a, .custom b => a.map asciiLower == b.map asciiLower
  | _, _ => false

/-- Modelled from the spec: `HeaderName::from` on a parsed header name —
well-known names (case-insensitively) map to their variants, the rest stay
custom with original casing. -/
def HeaderName.fromBytes (name : Bytes) : HeaderName :=
  let lower := name.map asciiLower
  if lower = str2bytes "accept" then .accept
  else if lower = str2bytes "content-length" then .contentLength
  else if lower = str2bytes "transfer-encoding" then .transferEncoding
  else if lower = str2bytes "cookie" then .cookie
  else .custom name

/-- Modelled from the spec: the header map is an ordered multimap of
name-value pairs preserving insertion order. -/
abbrev Headers := List (HeaderName × Bytes)

namespace Headers

/-- Append one value (`Headers::add`). -/
def add (hs : Headers) (n : HeaderName) (v : Bytes) : Headers := hs ++ [(n, v)]

/-- First value of a name (`Headers::get`). -/
def get (hs : Headers) (n : HeaderName) : Option Bytes :=
  (hs.find? (fun p => headerNameEq p.1 n)).map Prod.snd

/-- Remove all values of a name (`Headers::remove`). -/
def remove (hs : Headers) (n : HeaderName) : Headers :=
  hs.filter (fun p => ! headerNameEq p.1 n)

/-- Replace all values of a name by one value (`Headers::set`). -/
def set (hs : Headers) (n : HeaderName) (v : Bytes) : Headers :=
  add (remove hs n) n v

/-- Set a value only when the name is absent, returning the existing first
value otherwise (`Headers::try_set`). -/
def try_set (hs : Headers) (n : HeaderName) (v : Bytes) : Option Bytes × Headers :=
  match get hs n with
  | some old => (some old, hs)
  | none => (none, set hs n v)

end Headers

/-- `humpty_error.rs` `UserError` variants used by `request.rs` (the error
module is not in the snapshot; variants modelled from their use sites and the
spec). -/
inductive UserError
  | immutableRequestHeaderRemoved (name : HeaderName)
  | immutableRequestHeaderModified (name : HeaderName) (value : Bytes)
  | illegalAcceptHeaderValueSet (value : Bytes)
  | multipleAcceptHeaderValuesSet (oldValue newValue : Bytes)
deriving Repr, DecidableEq

/-- `humpty_error.rs` `RequestHeadParsingError` variants used by
`request.rs`. -/
inductive RequestHeadParsingError
  | eofBeforeReadingAnyBytes
  | statusLineContainsInvalidBytes
  | statusLineNoCRLF
  | statusLineNoWhitespace
  | statusLineTooManyWhitespaces
  | httpVersionNotSupported (version : Bytes)
  | methodNotSupportedByHttpVersion (version : HttpVersion) (method : Method)
  | pathInvalidUrlEncoding (path : Bytes)
  | headerLineIsNotUsAscii
  | headerLineNoCRLF
  | headerNameEmpty
  | headerValueMissing
  | headerValueEmpty
deriving Repr, DecidableEq

/-- `humpty_error.rs` `HumptyError` (the variants the embedded code
produces); `unreachableState` stands for `util.rs` `do_abort` reached through
`unwrap_some`. -/
inductive HumptyError
  | user (e : UserError)
  | parse (e : RequestHeadParsingError)
  | unreachableState
deriving Repr, DecidableEq

/-- `request.rs` lines 85-110 `RequestHead`. -/
structure RequestHead where
  method : Method
  version : HttpVersion
  status_line : Bytes
  path : Bytes
  query : Bytes
  accept : List AcceptMime
  headers : Headers
deriving Repr, DecidableEq

/-! ## `RequestHead` header mutation (`request.rs` lines 362-447) -/

/-- `request.rs` lines 362-381 `RequestHead::remove_header`, embedded as the
returned `HumptyResult<()>` next to the (possibly) updated head. -/
def RequestHead.remove_header (self : RequestHead) (name : HeaderName) :
    Except HumptyError Unit × RequestHead :=
  match name with
  | .accept =>
    (.ok (), { self with
      accept := [AcceptMime.default],
      headers := Headers.set self.headers .accept (str2bytes "*/*") })
  | .transferEncoding =>
    (.error (.user (.immutableRequestHeaderRemoved .transferEncoding)), self)
  | .contentLength =>
    (.error (.user (.immutableRequestHeaderRemoved .contentLength)), self)
  | _ => (.ok (), { self with headers := Headers.remove self.headers name })

/-- `request.rs` lines 385-412 `RequestHead::set_header`, embedded as the
returned `HumptyResult<()>` next to the (possibly) updated head. -/
def RequestHead.set_header (self : RequestHead) (name : HeaderName) (value : Bytes) :
    Except HumptyError Unit × RequestHead :=
  match name with
  | .accept =>
    match AcceptMime.parse value with
    | some accept =>
      (.ok (), { self with accept := accept, headers := Headers.set self.headers .accept value })
    | none => (.error (.user (.illegalAcceptHeaderValueSet value)), self)
  | .transferEncoding =>
    (.error (.user (.immutableRequestHeaderModified .transferEncoding value)), self)
  | .contentLength =>
    (.error (.user (.immutableRequestHeaderModified .contentLength value)), self)
  | _ => (.ok (), { self with headers := Headers.set self.headers name value })

/-- `request.rs` lines 415-447 `RequestHead::add_header`, embedded as the
returned `HumptyResult<()>` next to the (possibly) updated head. -/
def RequestHead.add_header (self : RequestHead) (name : HeaderName) (value : Bytes) :
    Except HumptyError Unit × RequestHead :=
  match name with
  | .accept =>
    match AcceptMime.parse value with
    | some accept =>
      match Headers.try_set self.headers .accept value with
      | (some oldValue, _) =>
        (.error (.user (.multipleAcceptHeaderValuesSet oldValue value)), self)
      | (none, hs) => (.ok (), { self with accept := accept, headers := hs })
    | none => (.error (.user (.illegalAcceptHeaderValueSet value)), self)
  | .transferEncoding =>
    (.error (.user (.immutableRequestHeaderModified .transferEncoding value)), self)
  | .contentLength =>
    (.error (.user (.immutableRequestHeaderModified .contentLength value)), self)
  | _ => (.ok (), { self with headers := Headers.add self.headers name value })

/-! ## Claim C1 -/

/-- C1: for every request head, mutating or removing `Content-Length` or
`Transfer-Encoding` through `set_header`, `add_header` or `remove_header`
returns a user error and leaves the head (headers map included) unchanged. -/
theorem claim_C1_immutable_headers (head : RequestHead) (value : Bytes) :
    (head.set_header .contentLength value =
      (.error (.user (.immutableRequestHeaderModified .contentLength value)), head)) ∧
    (head.set_header .transferEncoding value =
      (.error (.user (.immutableRequestHeaderModified .transferEncoding value)), head)) ∧
    (head.add_header .contentLength value =
      (.error (.user (.immutableRequestHeaderModified .contentLength value)), head)) ∧
    (head.add_header .transferEncoding value =
      (.error (.user (.immutableRequestHeaderModified .transferEncoding value)), head)) ∧
    (head.remove_header .contentLength =
      (.error (.user (.immutableRequestHeaderRemoved .contentLength)), head)) ∧
    (head.remove_header .transferEncoding =
      (.error (.user (.immutableRequestHeaderRemoved .transferEncoding)), head)) :=
  ⟨rfl, rfl, rfl, rfl, rfl, rfl⟩

/-! ## `RequestHead::new` (`request.rs` lines 112-271) -/

/-- `ConnectionStream::read_until(0xA)`: the bytes up to and including the
first line feed (all remaining bytes when there is none), and the rest of the
stream. -/
def read_until : Bytes → Bytes × Bytes
  | [] => ([], [])
  | b :: t =>
    if b == 10 then ([10], t)
    else
      let r := read_until t
      (b :: r.1, r.2)

theorem read_until_append (l : Bytes) : (read_until l).1 ++ (read_until l).2 = l := by
  induction l with
  | nil => rfl
  | cons b t ih =>
    rw [read_until]
    split_ifs with h
    · simp at h
      simp [h]
    · simp [ih]

theorem read_until_fst_ne (l : Bytes) (h : l ≠ []) : (read_until l).1 ≠ [] := by
  cases l with
  | nil => exact absurd rfl h
  | cons b t =>
    rw [read_until]
    split_ifs <;> simp

theorem read_until_rest_lt (l : Bytes) (h : l ≠ []) : (read_until l).2.length < l.length := by
  have ha := read_until_append l
  have hne := read_until_fst_ne l h
  have : (read_until l).1.length + (read_until l).2.length = l.length := by
    rw [← List.length_append, ha]
  have : 0 < (read_until l).1.length := List.length_pos.mpr hne
  omega

/-- `request.rs` lines 112-155: the status-line byte whitelist (RFC 3986
reserved and unreserved characters, plus `%`, space, CR and LF, plus ASCII
alphanumerics). -/
def validStatusByte (b : Nat) : Bool :=
  b == 33 || b == 35 || b == 36 || b == 38 || b == 39 || b == 40 || b == 41 ||
  b == 42 || b == 43 || b == 44 || b == 47 || b == 58 || b == 59 || b == 61 ||
  b == 63 || b == 64 || b == 91 || b == 93 ||
  b == 45 || b == 46 || b == 95 || b == 126 ||
  b == 37 || b == 32 || b == 13 || b == 10 ||
  ByteOps.isAsciiAlphanumeric b

/-- `request.rs` `parse_status_line`: validate every byte against the
whitelist, then view the buffer as a string (`from_utf8`; the whitelist is
ASCII-only, so this cannot fail, but the source still performs it). -/
def parse_status_line (buf : Bytes) : Except HumptyError Bytes :=
  if buf.all validStatusByte then
    if ByteOps.utf8Valid buf then .ok buf
    else .error (.parse .statusLineContainsInvalidBytes)
  else .error (.parse .statusLineContainsInvalidBytes)

/-- Modelled from the spec: the external `urlencoding::decode` percent
decoding of the path — `%XY` with two hex digits becomes a byte (so `%2e%2e`
decodes to `..`), malformed percent sequences pass through verbatim, and the
result must be valid UTF-8. -/
def percentDecodeLoose : Bytes → Bytes
  | [] => []
  | 37 :: h1 :: h2 :: t =>
    match hexVal h1, hexVal h2 with
    | some a, some b => (16 * a + b) :: percentDecodeLoose t
    | _, _ => 37 :: percentDecodeLoose (h1 :: h2 :: t)
  | b :: t => b :: percentDecodeLoose t

/-- Modelled from the spec: `urlencoding::decode` — `none` when the decoded
bytes are not valid UTF-8. -/
def urldecode (raw : Bytes) : Option Bytes :=
  let d := percentDecodeLoose raw
  if ByteOps.utf8Valid d then some d else none

/-- `request.rs` lines 229-255: handling of one header line buffer as read by
`read_until(0xA)`: interpret it as UTF-8, stop at the empty CRLF line
(`ok none`), strip the CRLF, split at the first `": "`, trim and check name
and value (`ok (some (name, value))`). -/
def parseHeaderLine (line_buf : Bytes) : Except HumptyError (Option (Bytes × Bytes)) :=
  if ¬ ByteOps.utf8Valid line_buf then .error (.parse .headerLineIsNotUsAscii)
  else if line_buf = CRLF then .ok none
  else
    match ByteOps.dropSuffix line_buf CRLF with
    | none => .error (.parse .headerLineNoCRLF)
    | some line =>
      let parts := ByteOps.splitOnceSub2 58 32 line
      let name := ByteOps.trim parts.1
      if name = [] then .error (.parse .headerNameEmpty)
      else
        match parts.2 with
        | none => .error (.parse .headerValueMissing)
        | some rest =>
          let value := ByteOps.trim rest
          if value = [] then .error (.parse .headerValueEmpty)
          else .ok (some (name, value))

theorem parseHeaderLine_nil : parseHeaderLine [] = .error (.parse .headerLineNoCRLF) := rfl

/-- `request.rs` lines 229-255: the header-reading loop, returning the header
map and the unconsumed remainder of the stream. -/
def readHeaders (hs : Headers) (input : Bytes) : Except HumptyError (Headers × Bytes) :=
  let r := read_until input
  match hline : parseHeaderLine r.1 with
  | .error e => .error e
  | .ok none => .ok (hs, r.2)
  | .ok (some (name, value)) =>
    readHeaders (Headers.add hs (HeaderName.fromBytes name) value) r.2
  termination_by input.length
  decreasing_by
    have hne : input ≠ [] := by
      intro e
      subst e
      rw [show (read_until []).1 = [] from rfl, parseHeaderLine_nil] at hline
      exact absurd hline (by simp)
    exact read_until_rest_lt input hne

/-- `request.rs` lines 164-271 `RequestHead::new`, over a pure byte stream:
returns the parsed head and the unconsumed remainder of the stream. -/
def RequestHead.new (input : Bytes) : Except HumptyError (RequestHead × Bytes) :=
  let r := read_until input
  if r.1.length = 0 then .error (.parse .eofBeforeReadingAnyBytes)
  else
    match parse_status_line r.1 with
    | .error e => .error e
    | .ok start_line_string =>
      match ByteOps.dropSuffix start_line_string CRLF with
      | none => .error (.parse .statusLineNoCRLF)
      | some status_line =>
        match ByteOps.splitByte 32 status_line with
        | [] => .error .unreachableState
        | methodTok :: fields =>
          let method := Method.fromToken methodTok
          match fields with
          | [] => .error (.parse .statusLineNoWhitespace)
          | uriTok :: rest2 =>
            let uri := ByteOps.splitOnceByte 63 uriTok
            match
              (match rest2.head? with
               | none => Except.ok HttpVersion.http09
               | some v =>
                 match HttpVersion.try_from_net_str v with
                 | .ok ver => Except.ok ver
                 | .error s => Except.error (HumptyError.parse (.httpVersionNotSupported s))) with
            | .error e => .error e
            | .ok version =>
              if 2 ≤ rest2.length then .error (.parse .statusLineTooManyWhitespaces)
              else
                match urldecode uri.1 with
                | none => .error (.parse (.pathInvalidUrlEncoding uri.1))
                | some path =>
                  let query := uri.2.getD []
                  if version = HttpVersion.http09 then
                    if method ≠ Method.get then
                      .error (.parse (.methodNotSupportedByHttpVersion version method))
                    else
                      .ok ({ method := method, version := version,
                             status_line := status_line, path := path, query := query,
                             accept := [AcceptMime.from_mime MimeType.TextHtml QValue.default],
                             headers := [] }, r.2)
                  else
                    match readHeaders [] r.2 with
                    | .error e => .error e
                    | .ok (headers, rest) =>
                      let accept_hdr := (Headers.get headers .accept).getD (str2bytes "*/*")
                      let accept := (AcceptMime.parse accept_hdr).getD [AcceptMime.default]
                      .ok ({ method := method, version := version,
                             status_line := status_line, path := path, query := query,
                             accept := accept, headers := headers }, rest)

/-! ## Lemmas about the byte helpers -/

theorem read_until_no_lf (a b : Bytes) (ha : ¬ 10 ∈ a) :
    read_until (a ++ 10 :: b) = (a ++ [10], b) := by
  induction a with
  | nil => simp [read_until]
  | cons x t ih =>
    have hx : x ≠ 10 := fun e => ha (e ▸ List.mem_cons_self x t)
    have ht : ¬ 10 ∈ t := fun m => ha (List.mem_cons_of_mem x m)
    rw [List.cons_append, read_until, if_neg (by simp [hx])]
    simp [ih ht]

theorem startsWith_append (p rest : Bytes) : ByteOps.startsWith (p ++ rest) p = true := by
  induction p with
  | nil => cases rest <;> rfl
  | cons x t ih => simp [ByteOps.startsWith, ih]

theorem dropSuffix_append (x s : Bytes) : ByteOps.dropSuffix (x ++ s) s = some x := by
  unfold ByteOps.dropSuffix
  rw [List.reverse_append, if_pos (startsWith_append s.reverse x.reverse)]
  congr 1
  rw [List.length_append, Nat.add_sub_cancel, List.take_left]

theorem splitByte_cons_of_not_mem (b : Nat) (x y : Bytes) (hx : ¬ b ∈ x) :
    ByteOps.splitByte b (x ++ b :: y) = x :: ByteOps.splitByte b y := by
  induction x with
  | nil => simp [ByteOps.splitByte]
  | cons c t ih =>
    have hc : c ≠ b := fun e => hx (e ▸ List.mem_cons_self c t)
    have ht : ¬ b ∈ t := fun m => hx (List.mem_cons_of_mem c m)
    rw [List.cons_append, ByteOps.splitByte, ih ht, if_neg (by simp [hc])]

theorem validStatusByte_ascii (b : Nat) (h : validStatusByte b = true) : b ≤ 127 := by
  simp [validStatusByte, ByteOps.isAsciiAlphanumeric] at h
  rcases h with h | h | h <;> omega

theorem readHeaders_terminator (hs : Headers) : readHeaders hs [13, 10] = .ok (hs, []) := by
  rw [readHeaders]
  rfl

/-- C4: the request method is an open set — for every method token (of valid
status-line bytes, containing no space or line feed), parsing a request line
carrying it succeeds and the resulting head carries exactly that method;
tokens that are not known verbs are carried verbatim as custom methods rather
than being rejected. -/
theorem claim_C4_open_method (tok : Bytes)
    (hv : ∀ b ∈ tok, validStatusByte b = true)
    (h10 : ¬ 10 ∈ tok) (h32 : ¬ 32 ∈ tok) :
    (RequestHead.new (tok ++ str2bytes " / HTTP/1.1" ++ CRLF ++ CRLF) =
      .ok ({ method := Method.fromToken tok, version := .http11,
             status_line := tok ++ str2bytes " / HTTP/1.1",
             path := [47], query := [],
             accept := [AcceptMime.default], headers := [] }, [])) ∧
    (tok ≠ str2bytes "GET" → tok ≠ str2bytes "POST" → tok ≠ str2bytes "PUT" →
     tok ≠ str2bytes "DELETE" → tok ≠ str2bytes "OPTIONS" →
     Method.fromToken tok = .custom tok) := by
  constructor
  · have e1 : tok ++ str2bytes " / HTTP/1.1" ++ CRLF ++ CRLF =
        (tok ++ [32, 47, 32, 72, 84, 84, 80, 47, 49, 46, 49, 13]) ++ 10 :: [13, 10] := by
      simp only [List.append_assoc]
      rfl
    have ha10 : ¬ 10 ∈ tok ++ [32, 47, 32, 72, 84, 84, 80, 47, 49, 46, 49, 13] := by
      intro hm
      rcases List.mem_append.mp hm with h | h
      · exact h10 h
      · revert h
        decide
    have hr := read_until_no_lf (tok ++ [32, 47, 32, 72, 84, 84, 80, 47, 49, 46, 49, 13])
      [13, 10] ha10
    have hall : ((tok ++ [32, 47, 32, 72, 84, 84, 80, 47, 49, 46, 49, 13]) ++ [10]).all
        validStatusByte = true := by
      simp only [List.all_append, Bool.and_eq_true]
      refine ⟨⟨?_, by decide⟩, by decide⟩
      rw [List.all_eq_true]
      exact hv
    have hascii : ∀ x ∈ (tok ++ [32, 47, 32, 72, 84, 84, 80, 47, 49, 46, 49, 13]) ++ [10],
        x ≤ 127 := by
      intro x hx
      rcases List.mem_append.mp hx with hx | hx
      · rcases List.mem_append.mp hx with hx | hx
        · exact validStatusByte_ascii x (hv x hx)
        · exact (by decide : ∀ y ∈ ([32, 47, 32, 72, 84, 84, 80, 47, 49, 46, 49, 13] : Bytes),
            y ≤ 127) x hx
      · exact (by decide : ∀ y ∈ ([10] : Bytes), y ≤ 127) x hx
    have hutf := ByteOps.utf8Valid_of_ascii _ hascii
    have hps : parse_status_line ((tok ++ [32, 47, 32, 72, 84, 84, 80, 47, 49, 46, 49, 13]) ++ [10]) =
        .ok ((tok ++ [32, 47, 32, 72, 84, 84, 80, 47, 49, 46, 49, 13]) ++ [10]) := by
      simp only [parse_status_line, hall, hutf, if_true]
    have hds : ByteOps.dropSuffix ((tok ++ [32, 47, 32, 72, 84, 84, 80, 47, 49, 46, 49, 13]) ++ [10])
        CRLF = some (tok ++ [32, 47, 32, 72, 84, 84, 80, 47, 49, 46, 49]) := by
      have e2 : (tok ++ [32, 47, 32, 72, 84, 84, 80, 47, 49, 46, 49, 13]) ++ [10]
          = (tok ++ [32, 47, 32, 72, 84, 84, 80, 47, 49, 46, 49]) ++ CRLF := by
        simp only [List.append_assoc]
        rfl
      rw [e2, dropSuffix_append]
    have hsb : ByteOps.splitByte 32 (tok ++ [32, 47, 32, 72, 84, 84, 80, 47, 49, 46, 49])
        = tok :: [[47], [72, 84, 84, 80, 47, 49, 46, 49]] := by
      rw [show (tok ++ [32, 47, 32, 72, 84, 84, 80, 47, 49, 46, 49] : Bytes)
          = tok ++ 32 :: [47, 32, 72, 84, 84, 80, 47, 49, 46, 49] from rfl,
        splitByte_cons_of_not_mem 32 tok _ h32]
      rfl
    rw [e1]
    simp only [RequestHead.new, hr, hps, hds, hsb, readHeaders_terminator]
    rw [if_neg (by simp [List.length_append])]
    rfl
  · intro k1 k2 k3 k4 k5
    simp only [Method.fromToken, if_neg k1, if_neg k2, if_neg k3, if_neg k4, if_neg k5]

/-- C2: every successfully parsed HTTP/0.9 request head (no version token on
the request line) has the method GET (any other method is rejected with an
error, so no non-GET head exists), has an empty headers map, has the Accept
list `[text/html;q=1]`, and consumed only the request line — the remainder of
the stream after the first line is returned untouched, so no header lines are
read. -/
theorem claim_C2_http09_requests (input : Bytes) (head : RequestHead) (rest : Bytes)
    (hok : RequestHead.new input = .ok (head, rest))
    (hv : head.version = HttpVersion.http09) :
    head.method = Method.get ∧ head.headers = [] ∧
    head.accept = [AcceptMime.from_mime MimeType.TextHtml QValue.default] ∧
    rest = (read_until input).2 := by
  simp only [RequestHead.new] at hok
  iterate 14 (all_goals (try split at hok))
  all_goals (try (exact Except.noConfusion hok))
  all_goals (simp only [Except.ok.injEq, Prod.mk.injEq] at hok
             obtain ⟨hhead, hrest⟩ := hok
             subst hhead
             subst hrest)
  all_goals simp_all

/-- Witness for C2 at the concrete HTTP/0.9 request `GET /dummy`. -/
theorem claim_C2_witness :
    (RequestHead.new (str2bytes "GET /dummy\r\n") =
      .ok ({ method := Method.get, version := .http09,
             status_line := str2bytes "GET /dummy",
             path := str2bytes "/dummy", query := [],
             accept := [AcceptMime.from_mime MimeType.TextHtml QValue.default],
             headers := [] }, [])) ∧
    (Method.get = Method.get ∧ ([] : Headers) = [] ∧
     ([AcceptMime.from_mime MimeType.TextHtml QValue.default] =
       [AcceptMime.from_mime MimeType.TextHtml QValue.default]) ∧
     ([] : Bytes) = (read_until (str2bytes "GET /dummy\r\n")).2) :=
  ⟨rfl, claim_C2_http09_requests (str2bytes "GET /dummy\r\n") _ _ rfl rfl⟩

/-- Witness for C4 at the concrete unknown method token `YOLO`. -/
theorem claim_C4_witness :
    (∀ b ∈ str2bytes "YOLO", validStatusByte b = true) ∧
    (¬ 10 ∈ str2bytes "YOLO") ∧ (¬ 32 ∈ str2bytes "YOLO") ∧
    ((RequestHead.new (str2bytes "YOLO" ++ str2bytes " / HTTP/1.1" ++ CRLF ++ CRLF) =
      .ok ({ method := Method.fromToken (str2bytes "YOLO"), version := .http11,
             status_line := str2bytes "YOLO" ++ str2bytes " / HTTP/1.1",
             path := [47], query := [],
             accept := [AcceptMime.default], headers := [] }, [])) ∧
     (str2bytes "YOLO" ≠ str2bytes "GET" → str2bytes "YOLO" ≠ str2bytes "POST" →
      str2bytes "YOLO" ≠ str2bytes "PUT" → str2bytes "YOLO" ≠ str2bytes "DELETE" →
      str2bytes "YOLO" ≠ str2bytes "OPTIONS" →
      Method.fromToken (str2bytes "YOLO") = .custom (str2bytes "YOLO"))) :=
  ⟨by decide, by decide, by decide,
   claim_C4_open_method (str2bytes "YOLO") (by decide) (by decide) (by decide)⟩

/-- C5 counterexample: the header line `Name:value` (CRLF-terminated)
contains a colon, a non-empty name before it and a non-empty trimmed value
after it, yet parsing fails with `HeaderValueMissing` — the source splits on
the two-byte pattern colon-space, not on a bare colon. -/
theorem claim_C5_counterexample :
    (str2bytes "Name:value" ++ CRLF).contains 58 = true ∧
    ByteOps.dropSuffix (str2bytes "Name:value" ++ CRLF) CRLF = some (str2bytes "Name:value") ∧
    ByteOps.trim (ByteOps.splitOnceByte 58 (str2bytes "Name:value")).1 = str2bytes "Name" ∧
    ByteOps.trim ((ByteOps.splitOnceByte 58 (str2bytes "Name:value")).2.getD []) =
      str2bytes "value" ∧
    parseHeaderLine (str2bytes "Name:value" ++ CRLF) =
      .error (.parse .headerValueMissing) :=
  ⟨by decide, rfl, rfl, rfl, rfl⟩

/-- C5 as amended: for every HTTP/1.0 or 1.1 header line, parsing succeeds
exactly when the line is UTF-8, is CRLF-terminated (and not the bare CRLF
terminator), contains the two-byte separator colon-space, and the trimmed
name before it and the trimmed value after it are non-empty.  A line without
the colon-space separator fails with `HeaderValueMissing` when its trimmed
content is non-empty (`HeaderNameEmpty` otherwise); an empty trimmed name
fails with `HeaderNameEmpty`; an empty trimmed value fails with
`HeaderValueEmpty`. -/
theorem claim_C5_amended_header_line (line : Bytes) :
    ((∃ n v, parseHeaderLine line = .ok (some (n, v))) ↔
      (ByteOps.utf8Valid line = true ∧ line ≠ CRLF ∧
       ∃ core, ByteOps.dropSuffix line CRLF = some core ∧
         ∃ pre post, ByteOps.splitOnceSub2 58 32 core = (pre, some post) ∧
           ByteOps.trim pre ≠ [] ∧ ByteOps.trim post ≠ [])) ∧
    (parseHeaderLine line = .error (.parse .headerValueMissing) ↔
      (ByteOps.utf8Valid line = true ∧ line ≠ CRLF ∧
       ∃ core, ByteOps.dropSuffix line CRLF = some core ∧
         (ByteOps.splitOnceSub2 58 32 core).2 = none ∧
         ByteOps.trim (ByteOps.splitOnceSub2 58 32 core).1 ≠ [])) ∧
    (parseHeaderLine line = .error (.parse .headerNameEmpty) ↔
      (ByteOps.utf8Valid line = true ∧ line ≠ CRLF ∧
       ∃ core, ByteOps.dropSuffix line CRLF = some core ∧
         ByteOps.trim (ByteOps.splitOnceSub2 58 32 core).1 = [])) ∧
    (parseHeaderLine line = .error (.parse .headerValueEmpty) ↔
      (ByteOps.utf8Valid line = true ∧ line ≠ CRLF ∧
       ∃ core post, ByteOps.dropSuffix line CRLF = some core ∧
         (ByteOps.splitOnceSub2 58 32 core).2 = some post ∧
         ByteOps.trim (ByteOps.splitOnceSub2 58 32 core).1 ≠ [] ∧
         ByteOps.trim post = [])) := by
  by_cases hutf : ByteOps.utf8Valid line = true
  · by_cases hcrlf : line = CRLF
    · subst hcrlf
      simp [parseHeaderLine, hutf]
    · cases hds : ByteOps.dropSuffix line CRLF with
      | none => simp [parseHeaderLine, hutf, hcrlf, hds]
      | some core =>
        rcases hsp : ByteOps.splitOnceSub2 58 32 core with ⟨pre, postOpt⟩
        by_cases hname : ByteOps.trim pre = []
        · cases postOpt <;> simp [parseHeaderLine, hutf, hcrlf, hds, hsp, hname]
        · cases postOpt with
          | none => simp [parseHeaderLine, hutf, hcrlf, hds, hsp, hname]
          | some post =>
            by_cases hval : ByteOps.trim post = []
            · simp [parseHeaderLine, hutf, hcrlf, hds, hsp, hname, hval]
            · simp [parseHeaderLine, hutf, hcrlf, hds, hsp, hname, hval]
              exact ⟨pre, post, ⟨rfl, rfl⟩, hname, hval⟩
  · simp [parseHeaderLine, hutf]

/-! ## `src/route.rs` `try_find_path` (claim C3) -/

/-- Modelled from the spec: the `crate::percent` `PercentDecode` trait used
by `try_find_path` (absent from the snapshot) — `%XY` with two hex digits
becomes a byte (so `%2e%2e` decodes to `..`), a malformed percent sequence
makes the whole decode fail with `none`. -/
def percent_decode : Bytes → Option Bytes
  | [] => some []
  | 37 :: h1 :: h2 :: t =>
    match hexVal h1, hexVal h2 with
    | some a, some b => (percent_decode t).map (fun d => (16 * a + b) :: d)
    | _, _ => none
  | 37 :: _ => none
  | b :: t => (percent_decode t).map (fun d => b :: d)

/-- The result of `std::fs::metadata`: a file, a directory, another kind of
entry, or an error (`none`). -/
inductive FileMeta
  | file
  | dir
  | other
deriving Repr, DecidableEq

/-- The filesystem as an external oracle: `metadata` and `canonicalize` for
each path. -/
structure Filesystem where
  metadata : Bytes → Option FileMeta
  canonicalize : Bytes → Bytes

/-- `route.rs` lines 140-145 `LocatedPath`. -/
inductive LocatedPath
  | directory
  | file (path : Bytes)
deriving Repr, DecidableEq

/-- The index-file loop of `try_find_path` (`route.rs` lines 166-173): the
first index file whose metadata is a file wins. -/
def tryIndexFiles (fs : Filesystem) (directory request_path : Bytes) :
    List Bytes → Option LocatedPath
  | [] => none
  | filename :: restFiles =>
    let path := directory ++ [47] ++ request_path ++ filename
    match fs.metadata path with
    | some .file => some (.file (fs.canonicalize path))
    | _ => tryIndexFiles fs directory request_path restFiles

/-- `route.rs` lines 150-187 `try_find_path`, over a filesystem oracle. -/
def try_find_path (fs : Filesystem) (directory request_path : Bytes)
    (index_files : List Bytes) : Option LocatedPath :=
  match percent_decode request_path with
  | none => none
  | some decoded =>
    if ¬ ByteOps.utf8Valid decoded then none
    else if ByteOps.hasSub decoded (str2bytes "..") || decoded.contains 58 then none
    else
      let request_path2 := decoded.dropWhile (fun b => b == 47)
      let directory2 := (directory.reverse.dropWhile (fun b => b == 47)).reverse
      if (request_path2.getLast? == some 47) || request_path2.isEmpty then
        tryIndexFiles fs directory2 request_path2 index_files
      else
        let path := directory2 ++ [47] ++ request_path2
        match fs.metadata path with
        | some .file => some (.file (fs.canonicalize path))
        | some .dir => some .directory
        | _ => none

/-- C3: for every filesystem, directory and index-file list, a request path
whose percent-decoded form contains the substring `..` or the byte `:` is
rejected by the static-file lookup (`try_find_path` returns `none`). -/
theorem claim_C3_path_traversal_rejected (fs : Filesystem)
    (directory request_path : Bytes) (index_files : List Bytes) (decoded : Bytes)
    (hdec : percent_decode request_path = some decoded)
    (hbad : ByteOps.hasSub decoded (str2bytes "..") = true ∨ decoded.contains 58 = true) :
    try_find_path fs directory request_path index_files = none := by
  unfold try_find_path
  rw [hdec]
  by_cases hutf : ByteOps.utf8Valid decoded
  · rcases hbad with h | h
    · simp [hutf, h]
    · have hmem : (58 : Nat) ∈ decoded := by simpa using h
      simp [hutf, hmem]
  · simp [hutf]

/-- Witness for C3 at the concrete path `%2e%2e/secret` (decoding to
`../secret`) against an empty filesystem oracle. -/
theorem claim_C3_witness :
    percent_decode (str2bytes "%2e%2e/secret") = some (str2bytes "../secret") ∧
    (ByteOps.hasSub (str2bytes "../secret") (str2bytes "..") = true ∨
      (str2bytes "../secret").contains 58 = true) ∧
    try_find_path ⟨fun _ => none, fun p => p⟩ (str2bytes "/srv")
      (str2bytes "%2e%2e/secret") [str2bytes "index.html"] = none :=
  ⟨rfl, Or.inl (by decide),
   claim_C3_path_traversal_rejected ⟨fun _ => none, fun p => p⟩ (str2bytes "/srv")
     (str2bytes "%2e%2e/secret") [str2bytes "index.html"] (str2bytes "../secret") rfl
     (Or.inl (by decide))⟩

/-! ## `src/websocket/message.rs` (claims C6 and C7) -/

/-- Modelled from the spec: RFC 6455 frame opcodes (`websocket/frame.rs` is
not in the snapshot). -/
inductive Opcode
  | continuation
  | text
  | binary
  | close
  | ping
  | pong
deriving Repr, DecidableEq

/-- Modelled from the spec: a WebSocket frame at the granularity
`message.rs` uses — FIN flag, opcode and payload. -/
structure Frame where
  fin : Bool
  opcode : Opcode
  payload : Bytes
deriving Repr, DecidableEq

/-- Modelled from the spec: `Frame::new`, a single (FIN) frame with the given
opcode and payload — used for the `Pong` and `Close` answers. -/
def Frame.new (op : Opcode) (payload : Bytes) : Frame := ⟨true, op, payload⟩

/-- The WebSocket session state (`WebsocketStream`): the incoming frames
still on the wire in network order, whether the first of them is fully
buffered (a nonblocking read can return it), the frames written out, the
last-pong timestamp, and whether writes succeed. -/
structure WebsocketStream where
  pending : List Frame
  ready : Bool
  out : List Frame
  last_pong : Nat
  writable : Bool
deriving Repr, DecidableEq

/-- `websocket/error.rs` `WebsocketError` variants used by `message.rs`
(modelled from their use sites). -/
inductive WebsocketError
  | connectionClosed
  | writeError
  | readError
deriving Repr, DecidableEq

/-- Modelled from the spec: the blocking `Frame::from_stream` — the next
frame in network order (an error when the stream is exhausted). -/
def Frame.from_stream (s : WebsocketStream) :
    Except WebsocketError (Frame × WebsocketStream) :=
  match s.pending with
  | [] => .error .readError
  | f :: rest => .ok (f, { s with pending := rest })

/-- `websocket/restion.rs` `Restion`: a result that can also be absent
(modelled from its use sites: `Ok`, `Err`, `None`). -/
inductive Restion (α ε : Type)
  | ok (value : α)
  | err (e : ε)
  | none
deriving Repr, DecidableEq

/-- Modelled from the spec: the nonblocking `Frame::from_stream_nonblocking`
— returns the next frame only when it is fully buffered, and `None` without
consuming anything otherwise (partial frames stay on the stream). -/
def Frame.from_stream_nonblocking (s : WebsocketStream) :
    Restion (Frame × WebsocketStream) WebsocketError :=
  match s.pending with
  | [] => .none
  | f :: rest => if s.ready then .ok (f, { s with pending := rest }) else .none

/-- The `From<Result>` conversion used by `message.rs` line 92 (`.into()`). -/
def Restion.ofExcept : Except ε α → Restion α ε
  | .ok a => .ok a
  | .error e => .err e

/-- `message.rs` `Message`. -/
structure Message where
  payload : Bytes
  text : Bool
deriving Repr, DecidableEq

/-- `message.rs` lines 41-78: the reassembly loop of `Message::from_stream`
with the accumulated frames explicit (`now` is the `Instant::now()` reading
used for `last_pong`).  Pings are answered with pongs, pongs update the
last-pong time, a close is echoed and surfaces `ConnectionClosed`, data
frames accumulate until a FIN frame, then the payloads are concatenated. -/
def fromStreamLoop (frames : List Frame) (s : WebsocketStream) (now : Nat) :
    Except WebsocketError Message × WebsocketStream :=
  if (frames.getLast?.map (fun f => !f.fin)).getD true then
    match hp : s.pending with
    | [] => (.error .readError, s)
    | f :: rest =>
      let s1 : WebsocketStream := { s with pending := rest }
      if f.opcode = .ping then
        if s1.writable then
          fromStreamLoop frames { s1 with out := s1.out ++ [Frame.new .pong f.payload] } now
        else (.error .writeError, s1)
      else if f.opcode = .pong then
        fromStreamLoop frames { s1 with last_pong := now } now
      else if f.opcode = .close then
        if s1.writable then
          (.error .connectionClosed, { s1 with out := s1.out ++ [Frame.new .close f.payload] })
        else (.error .writeError, s1)
      else fromStreamLoop (frames ++ [f]) s1 now
  else
    (.ok ⟨frames.foldl (fun acc fr => acc ++ fr.payload) [],
          (frames.head?.map (fun f => f.opcode == Opcode.text)).getD false⟩, s)
  termination_by s.pending.length
  decreasing_by all_goals (rw [hp]; simp)

/-- `message.rs` `Message::from_stream`. -/
def Message.from_stream (s : WebsocketStream) (now : Nat) :
    Except WebsocketError Message × WebsocketStream :=
  fromStreamLoop [] s now

theorem read_consumes (is_first : Bool) (s : WebsocketStream) (f : Frame)
    (s1 : WebsocketStream)
    (h : (if is_first then Frame.from_stream_nonblocking s
          else Restion.ofExcept (Frame.from_stream s)) = .ok (f, s1)) :
    s1.pending.length < s.pending.length := by
  obtain ⟨pending, ready, out, lp, w⟩ := s
  cases pending with
  | nil =>
    cases is_first <;>
      simp [Frame.from_stream_nonblocking, Frame.from_stream, Restion.ofExcept] at h
  | cons f0 rest =>
    cases is_first with
    | false =>
      simp [Frame.from_stream, Restion.ofExcept] at h
      obtain ⟨h1, h2⟩ := h
      subst h2
      simp
    | true =>
      cases ready with
      | false => simp [Frame.from_stream_nonblocking] at h
      | true =>
        simp [Frame.from_stream_nonblocking] at h
        obtain ⟨h1, h2⟩ := h
        subst h2
        simp

/-- `message.rs` lines 83-140: the reassembly loop of
`Message::from_stream_nonblocking`.  The first frame is read without
blocking; after a data frame has been consumed (`is_first_frame` becomes
false) the remaining frames are read blocking.  A `continue` for a ping or a
pong skips the `is_first_frame = false` assignment, exactly as in the
source. -/
def fromStreamNonblockingLoop (frames : List Frame) (is_first_frame : Bool)
    (s : WebsocketStream) (now : Nat) : Restion Message WebsocketError × WebsocketStream :=
  if (frames.getLast?.map (fun f => !f.fin)).getD true then
    match hfr : (if is_first_frame then Frame.from_stream_nonblocking s
                 else Restion.ofExcept (Frame.from_stream s)) with
    | .ok (f, s1) =>
      if f.opcode = .ping then
        if s1.writable then
          fromStreamNonblockingLoop frames is_first_frame
            { s1 with out := s1.out ++ [Frame.new .pong f.payload] } now
        else (.err .writeError, s1)
      else if f.opcode = .pong then
        fromStreamNonblockingLoop frames is_first_frame { s1 with last_pong := now } now
      else if f.opcode = .close then
        if s1.writable then
          (.err .connectionClosed, { s1 with out := s1.out ++ [Frame.new .close f.payload] })
        else (.err .writeError, s1)
      else fromStreamNonblockingLoop (frames ++ [f]) false s1 now
    | .err e => (.err e, s)
    | .none => (.none, s)
  else
    (.ok ⟨frames.foldl (fun acc fr => acc ++ fr.payload) [],
          (frames.head?.map (fun f => f.opcode == Opcode.text)).getD false⟩, s)
  termination_by s.pending.length
  decreasing_by all_goals (exact read_consumes _ _ _ _ hfr)

/-- `message.rs` `Message::from_stream_nonblocking`. -/
def Message.from_stream_nonblocking (s : WebsocketStream) (now : Nat) :
    Restion Message WebsocketError × WebsocketStream :=
  fromStreamNonblockingLoop [] true s now

/-- C6: in the blocking message read (`Message::from_stream` reassembly
loop), an incoming `Ping` frame is answered by appending a `Pong` frame with
the same payload to the output and reassembly continues with the accumulated
frames untouched; an incoming `Pong` frame updates the last-pong timestamp to
the current instant and reading continues; an incoming `Close` frame is
echoed back and the read returns the `ConnectionClosed` error. -/
theorem claim_C6_control_frames :
    (∀ (acc : List Frame) (s : WebsocketStream) (now : Nat) (f : Frame) (rest : List Frame),
      s.pending = f :: rest → f.opcode = .ping → s.writable = true →
      ((acc.getLast?.map (fun g => !g.fin)).getD true) = true →
      fromStreamLoop acc s now =
        fromStreamLoop acc
          { s with pending := rest, out := s.out ++ [Frame.new .pong f.payload] } now) ∧
    (∀ (acc : List Frame) (s : WebsocketStream) (now : Nat) (f : Frame) (rest : List Frame),
      s.pending = f :: rest → f.opcode = .pong →
      ((acc.getLast?.map (fun g => !g.fin)).getD true) = true →
      fromStreamLoop acc s now =
        fromStreamLoop acc { s with pending := rest, last_pong := now } now) ∧
    (∀ (acc : List Frame) (s : WebsocketStream) (now : Nat) (f : Frame) (rest : List Frame),
      s.pending = f :: rest → f.opcode = .close → s.writable = true →
      ((acc.getLast?.map (fun g => !g.fin)).getD true) = true →
      fromStreamLoop acc s now =
        (.error .connectionClosed,
         { s with pending := rest, out := s.out ++ [Frame.new .close f.payload] })) := by
  refine ⟨?_, ?_, ?_⟩ <;>
    (intro acc s now f rest hp hop
     obtain ⟨pending, ready, out, lp, w⟩ := s
     dsimp only at hp
     subst hp)
  · intro hw hg
    dsimp only at hw
    subst hw
    conv_lhs => rw [fromStreamLoop]
    simp [hg, hop]
  · intro hg
    conv_lhs => rw [fromStreamLoop]
    simp [hg, hop]
  · intro hw hg
    dsimp only at hw
    subst hw
    conv_lhs => rw [fromStreamLoop]
    simp [hg, hop]

/-- Witness for C6 at concrete one-frame sessions (a ping, a pong and a close
frame with payload `[1, 2]`). -/
theorem claim_C6_witness :
    (fromStreamLoop [] ⟨[⟨true, .ping, [1, 2]⟩], true, [], 0, true⟩ 5 =
      fromStreamLoop [] ⟨[], true, [Frame.new .pong [1, 2]], 0, true⟩ 5) ∧
    (fromStreamLoop [] ⟨[⟨true, .pong, [1, 2]⟩], true, [], 0, true⟩ 5 =
      fromStreamLoop [] ⟨[], true, [], 5, true⟩ 5) ∧
    (fromStreamLoop [] ⟨[⟨true, .close, [1, 2]⟩], true, [], 0, true⟩ 5 =
      (.error .connectionClosed, ⟨[], true, [Frame.new .close [1, 2]], 0, true⟩)) :=
  ⟨claim_C6_control_frames.1 [] ⟨[⟨true, .ping, [1, 2]⟩], true, [], 0, true⟩ 5
     ⟨true, .ping, [1, 2]⟩ [] rfl rfl rfl rfl,
   claim_C6_control_frames.2.1 [] ⟨[⟨true, .pong, [1, 2]⟩], true, [], 0, true⟩ 5
     ⟨true, .pong, [1, 2]⟩ [] rfl rfl rfl,
   claim_C6_control_frames.2.2 [] ⟨[⟨true, .close, [1, 2]⟩], true, [], 0, true⟩ 5
     ⟨true, .close, [1, 2]⟩ [] rfl rfl rfl rfl⟩

/-- Once a data frame has been consumed (`is_first_frame` is false), every
later read is blocking, so the nonblocking reassembly loop can no longer
return `None`. -/
theorem nbLoop_false_ne_none (n : Nat) :
    ∀ (s : WebsocketStream), s.pending.length ≤ n →
    ∀ (acc : List Frame) (now : Nat),
      (fromStreamNonblockingLoop acc false s now).1 ≠ Restion.none := by
  induction n with
  | zero =>
    intro s hlen acc now
    obtain ⟨pending, ready, out, lp, w⟩ := s
    cases pending with
    | cons x xs => simp at hlen
    | nil =>
      rw [fromStreamNonblockingLoop]
      by_cases hg : ((acc.getLast?.map (fun g => !g.fin)).getD true) = true
      · rw [if_pos hg]
        simp [Frame.from_stream, Restion.ofExcept]
      · rw [if_neg hg]
        simp
  | succ n ih =>
    intro s hlen acc now
    obtain ⟨pending, ready, out, lp, w⟩ := s
    cases pending with
    | nil =>
      rw [fromStreamNonblockingLoop]
      by_cases hg : ((acc.getLast?.map (fun g => !g.fin)).getD true) = true
      · rw [if_pos hg]
        simp [Frame.from_stream, Restion.ofExcept]
      · rw [if_neg hg]
        simp
    | cons f rest =>
      have hr : rest.length ≤ n := by
        simp at hlen
        omega
      rw [fromStreamNonblockingLoop]
      by_cases hg : ((acc.getLast?.map (fun g => !g.fin)).getD true) = true
      · rw [if_pos hg]
        simp [Frame.from_stream, Restion.ofExcept]
        split_ifs <;>
          first
          | (exact ih _ (by simpa using hr) _ _)
          | simp
      · rw [if_neg hg]
        simp

theorem nbLoop_none_spec (n : Nat) :
    ∀ (s : WebsocketStream), s.pending.length ≤ n →
    ∀ (acc : List Frame) (now : Nat) (res : Restion Message WebsocketError × WebsocketStream),
      fromStreamNonblockingLoop acc true s now = res →
      res.1 = Restion.none →
      ∃ k, res.2.pending = s.pending.drop k ∧
        (∀ f ∈ s.pending.take k, f.opcode = .ping ∨ f.opcode = .pong) ∧
        res.2.ready = s.ready ∧ res.2.writable = s.writable := by
  induction n with
  | zero =>
    intro s hlen acc now res heq hnone
    obtain ⟨pending, ready, out, lp, w⟩ := s
    cases pending with
    | cons x xs => simp at hlen
    | nil =>
      rw [fromStreamNonblockingLoop] at heq
      by_cases hg : ((acc.getLast?.map (fun g => !g.fin)).getD true) = true
      · rw [if_pos hg] at heq
        simp [Frame.from_stream_nonblocking] at heq
        subst heq
        exact ⟨0, by simp⟩
      · rw [if_neg hg] at heq
        subst heq
        simp at hnone
  | succ n ih =>
    intro s hlen acc now res heq hnone
    obtain ⟨pending, ready, out, lp, w⟩ := s
    cases pending with
    | nil =>
      rw [fromStreamNonblockingLoop] at heq
      by_cases hg : ((acc.getLast?.map (fun g => !g.fin)).getD true) = true
      · rw [if_pos hg] at heq
        simp [Frame.from_stream_nonblocking] at heq
        subst heq
        exact ⟨0, by simp⟩
      · rw [if_neg hg] at heq
        subst heq
        simp at hnone
    | cons f rest =>
      have hr : rest.length ≤ n := by
        simp at hlen
        omega
      rw [fromStreamNonblockingLoop] at heq
      by_cases hg : ((acc.getLast?.map (fun g => !g.fin)).getD true) = true
      · rw [if_pos hg] at heq
        cases ready with
        | false =>
          simp [Frame.from_stream_nonblocking] at heq
          subst heq
          exact ⟨0, by simp⟩
        | true =>
          simp [Frame.from_stream_nonblocking] at heq
          split_ifs at heq
          · obtain ⟨k, hk1, hk2, hk3, hk4⟩ :=
              ih ⟨rest, true, out ++ [Frame.new .pong f.payload], lp, w⟩
                (by simpa using hr) acc now res heq hnone
            refine ⟨k + 1, by simpa using hk1, ?_, by simpa using hk3, by simpa using hk4⟩
            intro g hgmem
            have hgmem2 : g = f ∨ g ∈ rest.take k := by
              simpa [List.mem_cons] using hgmem
            rcases hgmem2 with hgf | hgt
            · exact Or.inl (hgf ▸ ‹f.opcode = Opcode.ping›)
            · exact hk2 g (by simpa using hgt)
          · subst heq
            simp at hnone
          · obtain ⟨k, hk1, hk2, hk3, hk4⟩ :=
              ih ⟨rest, true, out, now, w⟩ (by simpa using hr) acc now res heq hnone
            refine ⟨k + 1, by simpa using hk1, ?_, by simpa using hk3, by simpa using hk4⟩
            intro g hgmem
            have hgmem2 : g = f ∨ g ∈ rest.take k := by
              simpa [List.mem_cons] using hgmem
            rcases hgmem2 with hgf | hgt
            · exact Or.inr (hgf ▸ ‹f.opcode = Opcode.pong›)
            · exact hk2 g (by simpa using hgt)
          · subst heq
            simp at hnone
          · subst heq
            simp at hnone
          · exfalso
            rw [← heq] at hnone
            exact nbLoop_false_ne_none n ⟨rest, true, out, lp, w⟩ (by simpa using hr)
              (acc ++ [f]) now hnone
      · rw [if_neg hg] at heq
        subst heq
        simp at hnone

/-- C7: a nonblocking WebSocket read returns one of Message (`Ok`), Timeout
(`None`) or Closed (`Err`); and when it returns without a complete message
(`None`), it has consumed no partial message frames — the frames it removed
from the stream are a leading run of ping/pong control frames only, every
data frame is still pending in order (together with the buffered-partial-frame
flag and writability of the session), so a later call can still reassemble
the full message. -/
theorem claim_C7_nonblocking_read (s : WebsocketStream) (now : Nat) :
    ((∃ m, (Message.from_stream_nonblocking s now).1 = .ok m) ∨
     (∃ e, (Message.from_stream_nonblocking s now).1 = .err e) ∨
     (Message.from_stream_nonblocking s now).1 = .none) ∧
    ((Message.from_stream_nonblocking s now).1 = .none →
      ∃ k, (Message.from_stream_nonblocking s now).2.pending = s.pending.drop k ∧
        (∀ f ∈ s.pending.take k, f.opcode = .ping ∨ f.opcode = .pong) ∧
        (Message.from_stream_nonblocking s now).2.ready = s.ready ∧
        (Message.from_stream_nonblocking s now).2.writable = s.writable) := by
  constructor
  · rcases h : (Message.from_stream_nonblocking s now).1 with m | e | _
    · exact Or.inl ⟨m, rfl⟩
    · exact Or.inr (Or.inl ⟨e, rfl⟩)
    · exact Or.inr (Or.inr rfl)
  · intro h
    exact nbLoop_none_spec s.pending.length s (le_refl _) [] now _ rfl h

/-- Witness for C7 at the concrete empty session. -/
theorem claim_C7_witness :
    ((∃ m, (Message.from_stream_nonblocking ⟨[], true, [], 0, true⟩ 5).1 = .ok m) ∨
     (∃ e, (Message.from_stream_nonblocking ⟨[], true, [], 0, true⟩ 5).1 = .err e) ∨
     (Message.from_stream_nonblocking ⟨[], true, [], 0, true⟩ 5).1 = .none) ∧
    (∃ k, (Message.from_stream_nonblocking ⟨[], true, [], 0, true⟩ 5).2.pending =
        ([] : List Frame).drop k ∧
      (∀ f ∈ ([] : List Frame).take k, f.opcode = .ping ∨ f.opcode = .pong) ∧
      (Message.from_stream_nonblocking ⟨[], true, [], 0, true⟩ 5).2.ready = true ∧
      (Message.from_stream_nonblocking ⟨[], true, [], 0, true⟩ 5).2.writable = true) :=
  ⟨(claim_C7_nonblocking_read ⟨[], true, [], 0, true⟩ 5).1,
   (claim_C7_nonblocking_read ⟨[], true, [], 0, true⟩ 5).2
     (by simp [Message.from_stream_nonblocking, fromStreamNonblockingLoop,
       Frame.from_stream_nonblocking])⟩
